import Mathlib

/-!
Verification development for the PDF-to-Markdown structure-reconstruction core
(PDFProcessor.processTextItems / groupLinesIntoParagraphs / identifyHeadings /
identifyLists / identifyTables and StructureAnalyzer.generateOutline /
identifySections / extractSectionContent / findCrossReferences /
determineReadingOrder).  Text is modelled as a list of UTF-16-style
characters, numeric coordinates and font sizes as integers, and the
floating-point mean-font-size comparisons exactly by integer
cross-multiplication.  JavaScript's stable Array.prototype.sort is modelled
by a stable insertion sort over the comparator's nonpositive-result
relation.
-/

/-! ## Shared text primitives -/

/-- Whitespace as matched by the JS regex class and by String.prototype.trim
on the character repertoire handled in this development. -/
def isWS (c : Char) : Bool :=
  c = ' ' || c = '\t' || c = '\n' || c = '\r'

/-- Model of String.prototype.trim. -/
def jsTrim (s : List Char) : List Char :=
  ((s.dropWhile isWS).reverse.dropWhile isWS).reverse

/-- Model of Array.prototype.join with a single-space separator. -/
def joinSp (xs : List (List Char)) : List Char :=
  List.intercalate [' '] xs

/-! ## Stable sort, modelling Array.prototype.sort with a comparator.

JS sorts are stable; for a comparator cmp, an element b is placed after a
whenever cmp a b is nonpositive.  A left-to-right insertion sort in which each
element is inserted after every element ordered no later than it reproduces
any stable sort for consistent comparators. -/

def insLe {α : Type} (le : α → α → Bool) (x : α) : List α → List α
  | [] => [x]
  | y :: ys => if le y x then y :: insLe le x ys else x :: y :: ys

def stableSort {α : Type} (le : α → α → Bool) (l : List α) : List α :=
  l.foldl (fun acc x => insLe le x acc) []

theorem mem_insLe {α : Type} (le : α → α → Bool) (x a : α) :
    ∀ l : List α, a ∈ insLe le x l ↔ a = x ∨ a ∈ l := by
  intro l
  induction l with
  | nil => simp [insLe]
  | cons y ys ih =>
      simp only [insLe]
      by_cases h : le y x = true
      · rw [if_pos h]
        simp only [List.mem_cons, ih]
        tauto
      · rw [if_neg h]
        simp only [List.mem_cons]

theorem mem_stableSort_aux {α : Type} (le : α → α → Bool) (a : α) :
    ∀ (l acc : List α),
      a ∈ l.foldl (fun acc x => insLe le x acc) acc ↔ a ∈ acc ∨ a ∈ l := by
  intro l
  induction l with
  | nil => intro acc; simp
  | cons x xs ih =>
      intro acc
      simp only [List.foldl_cons, ih, mem_insLe, List.mem_cons]
      tauto

theorem mem_stableSort {α : Type} (le : α → α → Bool) (a : α) (l : List α) :
    a ∈ stableSort le l ↔ a ∈ l := by
  simp [stableSort, mem_stableSort_aux]

/-! ## Token and line model (PDFProcessor.processTextItems)

A TextToken as built in extractAllPages from a PDF.js text item:
text = item.str, x = transform[4], y = transform[5], fontSize = transform[0],
bold/italic from the font name. -/

structure Tok where
  text : List Char
  x : Int
  y : Int
  width : Int
  height : Int
  fontName : List Char
  fontSize : Int
  bold : Bool
  italic : Bool
deriving DecidableEq, Repr

/-- The comparator passed to sortedItems in processTextItems:
same-line threshold 5 on |a.y - b.y|, then left-to-right by x,
otherwise top-to-bottom by descending y. -/
def tokCmp (a b : Tok) : Int :=
  if (a.y - b.y).natAbs < 5 then a.x - b.x else b.y - a.y

def tokLe (a b : Tok) : Bool := tokCmp a b ≤ 0

structure Line where
  y : Int
  items : List Tok
  text : List Char
  fontSize : Int
  bold : Bool
  italic : Bool
deriving DecidableEq, Repr

/-- Math.max over the member font sizes (the list is nonempty whenever a line
is flushed, so the base case is unreachable). -/
def maxFontSize : List Tok → Int
  | [] => 0
  | t :: ts => ts.foldl (fun m u => max m u.fontSize) t.fontSize

/-- The line record pushed by processTextItems: y is the running currentY at
flush time, text joins the member texts with spaces and trims. -/
def mkLine (curY : Int) (items : List Tok) : Line :=
  { y := curY
    items := items
    text := jsTrim (joinSp (items.map (·.text)))
    fontSize := maxFontSize items
    bold := items.any (·.bold)
    italic := items.any (·.italic) }

/-- The grouping walk of processTextItems.  cur is the current-line
accumulator (always nonempty here, mirroring the currentLine.length > 0
guards), curY the running currentY, updated to every joined item's y. -/
def groupLoop : List Tok → List Tok → Int → List Line
  | [], cur, curY => [mkLine curY cur]
  | t :: ts, cur, curY =>
      if (t.y - curY).natAbs < 5 then groupLoop ts (cur ++ [t]) t.y
      else mkLine curY cur :: groupLoop ts [t] t.y

/-- Group sorted tokens into lines; the first token always joins because
currentY starts as null. -/
def groupIntoLines : List Tok → List Line
  | [] => []
  | t :: ts => groupLoop ts [t] t.y

structure Paragraph where
  lines : List Line
  text : List Char
  fontSize : Int
  bold : Bool
  italic : Bool
  y : Int
deriving DecidableEq, Repr

/-- The paragraph record pushed by groupLinesIntoParagraphs; all derived
fields come from the first accumulated line.  The nil case is unreachable
(paragraphs are only pushed from a nonempty accumulator). -/
def mkParagraph : List Line → Paragraph
  | [] => ⟨[], [], 0, false, false, 0⟩
  | l :: ls =>
      { lines := l :: ls
        text := jsTrim (joinSp ((l :: ls).map (·.text)))
        fontSize := l.fontSize
        bold := l.bold
        italic := l.italic
        y := l.y }

/-- lineSpacing: 0 on the first line (lastY null), else |lastY - y|. -/
def paraSpacing (lastY : Option Int) (l : Line) : Nat :=
  match lastY with
  | none => 0
  | some ly => (ly - l.y).natAbs

/-- isNewParagraph: a gap above 20 units, an empty (trimmed) line, or a
font-size jump above 2 relative to the first line of the current
paragraph. -/
def paraIsNew (cur : List Line) (lastY : Option Int) (l : Line) : Bool :=
  decide (paraSpacing lastY l > 20) || decide (jsTrim l.text = []) ||
    (match cur with
      | [] => false
      | c :: _ => decide ((l.fontSize - c.fontSize).natAbs > 2))

/-- The walk of groupLinesIntoParagraphs: flush when isNewParagraph fires on
a nonempty accumulator; empty lines are never added to the accumulator. -/
def paraLoop : List Line → List Line → Option Int → List Paragraph
  | [], cur, _ => if cur.isEmpty then [] else [mkParagraph cur]
  | l :: ls, cur, lastY =>
      if paraIsNew cur lastY l && !cur.isEmpty then
        mkParagraph cur ::
          paraLoop ls (if jsTrim l.text = [] then [] else [l]) (some l.y)
      else
        paraLoop ls (if jsTrim l.text = [] then cur else cur ++ [l]) (some l.y)

def groupLinesIntoParagraphs (lines : List Line) : List Paragraph :=
  if lines.isEmpty then [] else paraLoop lines [] none

structure ContentPage where
  lines : List Line
  paragraphs : List Paragraph
deriving DecidableEq, Repr

/-- PDFProcessor.processTextItems: sort by position, group into lines, then
into paragraphs. -/
def processTextItems (items : List Tok) : ContentPage :=
  if items.isEmpty then ⟨[], []⟩
  else
    let lines := groupIntoLines (stableSort tokLe items)
    ⟨lines, groupLinesIntoParagraphs lines⟩

/-! ## Heading classifier (PDFProcessor.identifyHeadings) and heading text
cleanup (StructureAnalyzer.cleanHeadingText).

The JS comparisons fontSize > avgFontSize * r, with avgFontSize the mean of
the positive font sizes and r a decimal literal, are modelled exactly over
the integers by cross-multiplication: for count > 0,
fontSize > (sum / count) * (num / den) iff den * fontSize * count > num * sum.
When no paragraph has positive font size the JS mean is NaN and every
comparison against it is false; then sum = 0 and count = 0, and the
cross-multiplied comparison is 0 > 0, false as well, so the encoding also
covers that case.  (For the concrete inputs settled here the binary
floating-point comparisons of the original agree with the exact ones.) -/

structure PageHeading where
  text : List Char
  level : Nat
  fontSize : Int
  bold : Bool
  y : Int
deriving DecidableEq, Repr

/-- Does the trimmed text match /^(Chapter|Section|\d+\.|\d+\.\d+)/ ?
(The fourth alternative is subsumed by the third.) -/
def hasHeadingShape (s : List Char) : Bool :=
  ("Chapter".toList.isPrefixOf s) || ("Section".toList.isPrefixOf s) ||
    (let ds := s.takeWhile Char.isDigit
     decide (ds ≠ []) &&
       (match s.drop ds.length with
         | '.' :: _ => true
         | _ => false))

/-- fontSize > (sum / count) * (num / den), encoded without division. -/
def gtMeanRatio (fs sum : Int) (count : Nat) (num den : Int) : Bool :=
  decide (den * fs * count > num * sum)

/-- The fixed ratio ladder of identifyHeadings against the page mean
(1.8x, 1.5x, 1.3x, 1.1x). -/
def headingLevel (sum : Int) (count : Nat) (fs : Int) : Nat :=
  if gtMeanRatio fs sum count 9 5 then 1
  else if gtMeanRatio fs sum count 3 2 then 2
  else if gtMeanRatio fs sum count 13 10 then 3
  else if gtMeanRatio fs sum count 11 10 then 4
  else 5

def identifyHeadings (paras : List Paragraph) : List PageHeading :=
  if paras.isEmpty then []
  else
    let fontSizes := (paras.map (·.fontSize)).filter (fun s => s > 0)
    let sum := fontSizes.sum
    let count := fontSizes.length
    paras.filterMap fun p =>
      let isLargerFont : Bool := gtMeanRatio p.fontSize sum count 6 5
      let isShort : Bool := decide (p.text.length < 100)
      let shape : Bool := hasHeadingShape (jsTrim p.text)
      if (isLargerFont || p.bold || shape) && isShort then
        some ⟨jsTrim p.text, headingLevel sum count p.fontSize, p.fontSize, p.bold, p.y⟩
      else none

/-- Consume the (\.\d+)* groups of the numbering regex: a dot followed by at
least one digit, greedily, repeated.  Structural recursion on a fuel bound
by the input length (each step consumes at least two characters), so that
the definition reduces inside the kernel. -/
def munchDotGroupsF : Nat → List Char → List Char
  | 0, s => s
  | fuel + 1, s =>
      match s with
      | '.' :: c :: rest =>
          if c.isDigit then munchDotGroupsF fuel ((c :: rest).dropWhile Char.isDigit)
          else '.' :: c :: rest
      | _ => s

def munchDotGroups (s : List Char) : List Char :=
  munchDotGroupsF s.length s

/-- replace(/^\d+(\.\d+)*\s*\/, ''). -/
def stripLeadingNumbering (s : List Char) : List Char :=
  let ds := s.takeWhile Char.isDigit
  if ds.isEmpty then s
  else (munchDotGroups (s.drop ds.length)).dropWhile isWS

/-- One alternative of /^(Chapter|Section|Part|Appendix)\s+\d+\s*\/i: the
word case-insensitively, one or more spaces, one or more digits, trailing
spaces. -/
def tryHeadWord (w : List Char) (s : List Char) : Option (List Char) :=
  if w.isPrefixOf (s.map Char.toLower) then
    let rest := s.drop w.length
    let ws1 := rest.takeWhile isWS
    if ws1.isEmpty then none
    else
      let rest2 := rest.drop ws1.length
      let ds := rest2.takeWhile Char.isDigit
      if ds.isEmpty then none
      else some ((rest2.drop ds.length).dropWhile isWS)
  else none

/-- replace(/^(Chapter|Section|Part|Appendix)\s+\d+\s*\/i, ''); the four
words start with distinct letters, so at most one alternative applies. -/
def stripHeadWord (s : List Char) : List Char :=
  match ["chapter", "section", "part", "appendix"].findSome?
      (fun w => tryHeadWord w.toList s) with
  | some r => r
  | none => s

/-- replace(/\s+/g, ' '), on fuel bounded by the input length so that the
definition reduces inside the kernel. -/
def collapseWSF : Nat → List Char → List Char
  | 0, _ => []
  | fuel + 1, s =>
      match s with
      | [] => []
      | c :: cs =>
          if isWS c then ' ' :: collapseWSF fuel (cs.dropWhile isWS)
          else c :: collapseWSF fuel cs

def collapseWS (s : List Char) : List Char :=
  collapseWSF s.length s

/-- StructureAnalyzer.cleanHeadingText. -/
def cleanHeadingText (s : List Char) : List Char :=
  collapseWS (jsTrim (stripHeadWord (stripLeadingNumbering s)))

/-! ## Outline builder (StructureAnalyzer.generateOutline)

Document-level headings carry the page number added in analyzeStructure. -/

structure DocHeading where
  text : List Char
  level : Nat
  fontSize : Int
  bold : Bool
  y : Int
  pageNumber : Int
deriving DecidableEq, Repr

/-- The heading comparator of generateOutline and identifySections:
ascending page number, then descending y. -/
def headingCmp (a b : DocHeading) : Int :=
  if a.pageNumber ≠ b.pageNumber then a.pageNumber - b.pageNumber else b.y - a.y

def headingLe (a b : DocHeading) : Bool := headingCmp a b ≤ 0

inductive ONode where
  | mk (text : List Char) (level : Nat) (pageNumber : Int) (children : List ONode)
deriving Repr

def ONode.level : ONode → Nat
  | .mk _ lvl _ _ => lvl

def ONode.children : ONode → List ONode
  | .mk _ _ _ cs => cs

/-- A frame of the level-aware stack: an outline node still open for
children.  In the JS original the node object sits both in the stack and
already attached in its parent's children array; here attachment is delayed
until the frame is closed, which yields the same tree because children are
appended in arrival order either way. -/
structure Frame where
  text : List Char
  level : Nat
  pageNumber : Int
  children : List ONode

def closeFrame (f : Frame) : ONode :=
  .mk f.text f.level f.pageNumber f.children

/-- Pop stack frames while the top's level is at least lvl, attaching each
closed frame to the frame below it, or to the root list when none remains.
The stack's head is its top. -/
def popGE (lvl : Nat) : List Frame → List ONode → List Frame × List ONode
  | [], roots => ([], roots)
  | [f], roots =>
      if lvl ≤ f.level then ([], roots ++ [closeFrame f]) else ([f], roots)
  | f :: g :: gs, roots =>
      if lvl ≤ f.level then
        popGE lvl ({ g with children := g.children ++ [closeFrame f] } :: gs) roots
      else (f :: g :: gs, roots)
termination_by fs _ => fs.length
decreasing_by simp

/-- Insert one heading: pop frames with level ≥ heading.level, then push a
fresh frame for the heading. -/
def insertHeading (st : List Frame × List ONode) (h : DocHeading) :
    List Frame × List ONode :=
  (⟨h.text, h.level, h.pageNumber, []⟩ :: (popGE h.level st.1 st.2).1,
    (popGE h.level st.1 st.2).2)

/-- StructureAnalyzer.generateOutline: sort headings by page then descending
y, build the tree with the level-aware stack; the final popGE 0 closes every
remaining frame, mirroring that in the JS original all nodes are already
attached when the loop ends. -/
def generateOutline (hs : List DocHeading) : List ONode :=
  let sorted := stableSort headingLe hs
  let st := sorted.foldl insertHeading ([], [])
  (popGE 0 st.1 st.2).2

mutual
/-- The outline nesting invariant at a node: every child has strictly
greater level than the node, recursively. -/
def goodNode : ONode → Bool
  | .mk _ lvl _ cs => goodKids lvl cs

def goodKids : Nat → List ONode → Bool
  | _, [] => true
  | lvl, c :: cs => (decide (lvl < c.level) && goodNode c) && goodKids lvl cs
end

def goodForest (l : List ONode) : Bool :=
  l.all goodNode

/-! ## List recognizer (PDFProcessor.identifyLists) -/

/-- The bullet characters of /^[•·▪▫‣⁃]\s/ . -/
def unicodeBullets : List Char := ['•', '·', '▪', '▫', '‣', '⁃']

/-- /^[•·▪▫‣⁃]\s/ or /^[-*+]\s/ . -/
def isBulletStart : List Char → Bool
  | c :: d :: _ => (c ∈ unicodeBullets || c ∈ ['-', '*', '+']) && isWS d
  | _ => false

/-- /^\d+[.)]\s/ . -/
def isNumberedStart (s : List Char) : Bool :=
  let ds := s.takeWhile Char.isDigit
  decide (ds ≠ []) &&
    (match s.drop ds.length with
      | p :: w :: _ => (p = '.' || p = ')') && isWS w
      | _ => false)

/-- /^[a-zA-Z][.)]\s/ (Char.isAlpha is exactly the ASCII letter ranges). -/
def isLetterStart : List Char → Bool
  | c :: p :: w :: _ => c.isAlpha && (p = '.' || p = ')') && isWS w
  | _ => false

/-- The single-character alternative class [•·▪▫‣⁃\-*+] of the marker
match/replace regexes. -/
def markerChars : List Char := unicodeBullets ++ ['-', '*', '+']

/-- text.match(/^([•·▪▫‣⁃\-*+]|\d+[.)]|[a-zA-Z][.)])/), leftmost alternative
first; a digit can never be [.)], so the greedy \d+ needs no backtracking. -/
def matchMarker (s : List Char) : Option (List Char) :=
  match s with
  | [] => none
  | c :: rest =>
      if c ∈ markerChars then some [c]
      else
        let ds := (c :: rest).takeWhile Char.isDigit
        if ds.isEmpty then
          if c.isAlpha then
            match rest with
            | p :: _ => if p = '.' || p = ')' then some [c, p] else none
            | [] => none
          else none
        else
          match (c :: rest).drop ds.length with
          | p :: _ => if p = '.' || p = ')' then some (ds ++ [p]) else none
          | [] => none

/-- text.replace(/^([•·▪▫‣⁃\-*+]|\d+[.)]|[a-zA-Z][.)])\s/, ''): the marker
followed by one whitespace character is removed when present. -/
def stripMarker (s : List Char) : List Char :=
  match matchMarker s with
  | none => s
  | some m =>
      match s.drop m.length with
      | w :: rest => if isWS w then rest else s
      | [] => s

inductive LKind where
  | ordered
  | unordered
deriving DecidableEq, Repr

structure LItem where
  text : List Char
  marker : List Char
  y : Int
deriving DecidableEq, Repr

structure JList where
  type : LKind
  items : List LItem
  y : Int
deriving DecidableEq, Repr

/-- The walk of identifyLists: a matching paragraph extends the current list
of the same broad type or starts a new one; a non-matching paragraph closes
the current list. -/
def identifyListsGo : List Paragraph → Option JList → List JList
  | [], cur =>
      match cur with
      | some l => [l]
      | none => []
  | p :: ps, cur =>
      let text := jsTrim p.text
      let isB := isBulletStart text
      let isN := isNumberedStart text
      let isL := isLetterStart text
      if isB || isN || isL then
        let lt : LKind := if isB then .unordered else .ordered
        let item : LItem :=
          ⟨jsTrim (stripMarker text), (matchMarker text).getD [], p.y⟩
        match cur with
        | some l =>
            if l.type = lt then
              identifyListsGo ps (some { l with items := l.items ++ [item] })
            else l :: identifyListsGo ps (some ⟨lt, [item], p.y⟩)
        | none => identifyListsGo ps (some ⟨lt, [item], p.y⟩)
      else
        match cur with
        | some l => l :: identifyListsGo ps none
        | none => identifyListsGo ps none

def identifyLists (ps : List Paragraph) : List JList :=
  identifyListsGo ps none

/-! ## Table detector (PDFProcessor.identifyTables) -/

/-- Length of the leading whitespace run. -/
def wsRunLen : List Char → Nat
  | [] => 0
  | c :: cs => if isWS c then wsRunLen cs + 1 else 0

/-- JS String.prototype.split on a whitespace-run regex requiring at least
k characters (\s{k,}, greedy): runs of length below k stay inside segments,
runs of length at least k are split points, and boundary runs contribute
empty segments exactly as in JS. -/
def splitRunGoF (k : Nat) : Nat → List Char → List Char → List (List Char)
  | _, [], seg => [seg.reverse]
  | 0, _ :: _, seg => [seg.reverse]
  | fuel + 1, c :: cs, seg =>
      if isWS c && decide (k ≤ wsRunLen (c :: cs)) then
        seg.reverse :: splitRunGoF k fuel ((c :: cs).dropWhile isWS) []
      else splitRunGoF k fuel cs (c :: seg)

def jsSplitWS (k : Nat) (s : List Char) : List (List Char) :=
  splitRunGoF k s.length s []

structure TRow where
  text : List Char
  segments : List (List Char)
  y : Int
deriving DecidableEq, Repr

structure Table where
  rows : List TRow
  columnCount : Nat
  y : Int
deriving DecidableEq, Repr

/-- The { line, segments, segmentCount } candidate records of
identifyTables. -/
structure PotLine where
  line : Line
  segments : List (List Char)
  segmentCount : Nat
deriving DecidableEq, Repr

/-- Lines whose text splits on 3+ whitespace into at least 3 segments. -/
def potentialTableLines (lines : List Line) : List PotLine :=
  lines.filterMap fun l =>
    let segs := jsSplitWS 3 l.text
    if 3 ≤ segs.length then some ⟨l, segs, segs.length⟩ else none

/-- The table block built from a candidate group (the group is nonempty
whenever this is called; columnCount and y come from its first row). -/
def mkTable : List PotLine → Table
  | [] => ⟨[], 0, 0⟩
  | c :: cs =>
      { rows := (c :: cs).map fun r => ⟨r.line.text, r.segments, r.line.y⟩
        columnCount := c.segmentCount
        y := c.line.y }

/-- The grouping walk of identifyTables: a candidate joins the current group
when it is within 30 units of the group's last row and its segment count is
within 1 of the group's first row; otherwise the group is emitted if it has
at least two rows. -/
def tableGo : List PotLine → List PotLine → List Table
  | [], cur => if 2 ≤ cur.length then [mkTable cur] else []
  | c :: rest, cur =>
      if h : cur = [] then tableGo rest [c]
      else
        let lastY := (cur.getLast h).line.y
        let firstCount := (cur.head h).segmentCount
        if (c.line.y - lastY).natAbs < 30 &&
            decide (((c.segmentCount : Int) - (firstCount : Int)).natAbs ≤ 1) then
          tableGo rest (cur ++ [c])
        else if 2 ≤ cur.length then mkTable cur :: tableGo rest [c]
        else tableGo rest [c]

def identifyTables (lines : List Line) : List Table :=
  let pot := potentialTableLines lines
  if 2 ≤ pot.length then tableGo pot [] else []

/-! ## Cross-reference context (StructureAnalyzer.extractContext)

findCrossReferences records, for every regex match, the context
extractContext(pageText, match.index, 50). -/

/-- StructureAnalyzer.extractContext: slice from max(0, index - len) to
min(text.length, index + len), then trim.  Natural subtraction realises the
max with 0. -/
def extractContext (text : List Char) (index : Nat) (contextLength : Nat) :
    List Char :=
  let start := index - contextLength
  let stop := min text.length (index + contextLength)
  jsTrim ((text.take stop).drop start)

/-- The context recorded by findCrossReferences for a match at the given
index of a page's raw text. -/
def crossRefContext (text : List Char) (index : Nat) : List Char :=
  extractContext text index 50

/-! ## Document model and reading order
(StructureAnalyzer.determineReadingOrder / calculateReadingOrder)

analyzeStructure tags each page-local heading/list/table with its page
number; pages expose content.paragraphs and rawText. -/

structure DocList where
  type : LKind
  items : List LItem
  y : Int
  pageNumber : Int
deriving DecidableEq, Repr

structure DocTable where
  rows : List TRow
  columnCount : Nat
  y : Int
  pageNumber : Int
deriving DecidableEq, Repr

structure PageRec where
  pageNumber : Int
  paragraphs : List Paragraph
  rawText : List Char
deriving DecidableEq, Repr

structure DocStructure where
  headings : List DocHeading
  lists : List DocList
  tables : List DocTable
deriving DecidableEq, Repr

structure ContentDoc where
  pages : List PageRec
  struct : DocStructure
deriving DecidableEq, Repr

/-- StructureAnalyzer.calculateReadingOrder. -/
def calculateReadingOrder (pageNumber y : Int) : Int :=
  pageNumber * 10000 + (10000 - y)

inductive ROContent where
  | heading (h : DocHeading)
  | paragraph (p : Paragraph)
  | list (l : DocList)
  | table (t : DocTable)
deriving DecidableEq, Repr

structure ROElement where
  type : List Char
  content : ROContent
  pageNumber : Int
  y : Int
  order : Int
deriving DecidableEq, Repr

/-- The elements contributed by one page in determineReadingOrder. -/
def pageElements (st : DocStructure) (page : PageRec) : List ROElement :=
  ((st.headings.filter (fun h => h.pageNumber = page.pageNumber)).map fun h =>
      ⟨"heading".toList, .heading h, page.pageNumber, h.y,
        calculateReadingOrder page.pageNumber h.y⟩) ++
  (page.paragraphs.map fun p =>
      ⟨"paragraph".toList, .paragraph p, page.pageNumber, p.y,
        calculateReadingOrder page.pageNumber p.y⟩) ++
  ((st.lists.filter (fun l => l.pageNumber = page.pageNumber)).map fun l =>
      ⟨"list".toList, .list l, page.pageNumber, l.y,
        calculateReadingOrder page.pageNumber l.y⟩) ++
  ((st.tables.filter (fun t => t.pageNumber = page.pageNumber)).map fun t =>
      ⟨"table".toList, .table t, page.pageNumber, t.y,
        calculateReadingOrder page.pageNumber t.y⟩)

def roLe (a b : ROElement) : Bool := a.order ≤ b.order

/-- StructureAnalyzer.determineReadingOrder: gather all typed elements page
by page and sort ascending by order. -/
def determineReadingOrder (c : ContentDoc) : List ROElement :=
  stableSort roLe ((c.pages.map (pageElements c.struct)).flatten)

/-! ## Sections (StructureAnalyzer.identifySections / extractSectionContent) -/

/-- JS wordCount: content.split(/\s+/).length. -/
def wordCount (content : List Char) : Nat :=
  (jsSplitWS 1 content).length

/-- The paragraph loop of extractSectionContent on one page: matching the
start heading (by y and text) turns collecting on, matching the end heading
breaks out of the page with collecting off, collected paragraphs append
their text plus a blank line. -/
def escParas (sh : DocHeading) (eh : Option DocHeading) :
    List Paragraph → Bool → List Char → List Char × Bool
  | [], col, acc => (acc, col)
  | p :: ps, col, acc =>
      if p.y = sh.y ∧ p.text = sh.text then escParas sh eh ps true acc
      else if (match eh with
          | some e => decide (p.y = e.y) && decide (p.text = e.text)
          | none => false) then (acc, false)
      else
        escParas sh eh ps col
          (if col then acc ++ p.text ++ ['\n', '\n'] else acc)

/-- The page loop of extractSectionContent: pages before the start heading's
page are skipped, pages after the end heading's page stop the scan, and after
a page in which collecting ended with an end heading present the scan
stops. -/
def escPages (sh : DocHeading) (eh : Option DocHeading) :
    List PageRec → Bool → List Char → List Char
  | [], _, acc => acc
  | pg :: pgs, col, acc =>
      if pg.pageNumber < sh.pageNumber then escPages sh eh pgs col acc
      else if (match eh with
          | some e => decide (pg.pageNumber > e.pageNumber)
          | none => false) then acc
      else
        let r := escParas sh eh pg.paragraphs col acc
        if ¬ r.2 ∧ eh.isSome then r.1
        else escPages sh eh pgs r.2 r.1

/-- StructureAnalyzer.extractSectionContent. -/
def extractSectionContent (pages : List PageRec) (sh : DocHeading)
    (eh : Option DocHeading) : List Char :=
  jsTrim (escPages sh eh pages false [])

structure Section where
  title : List Char
  level : Nat
  pageNumber : Int
  startY : Int
  endY : Int
  content : List Char
  wordCount : Nat
  hasSubsections : Bool
deriving DecidableEq, Repr

/-- The section record pushed by identifySections for one heading and the
following heading (hs is the whole sorted heading list, used by the
hasSubsections scan). -/
def mkSection (pages : List PageRec) (hs : List DocHeading)
    (h : DocHeading) (nextH : Option DocHeading) : Section :=
  let content := extractSectionContent pages h nextH
  { title := h.text
    level := h.level
    pageNumber := h.pageNumber
    startY := h.y
    endY := match nextH with
      | some n => n.y
      | none => 0
    content := content
    wordCount := wordCount content
    hasSubsections := hs.any fun x =>
      decide (h.level < x.level) && decide (h.pageNumber ≤ x.pageNumber) &&
        (match nextH with
          | none => true
          | some n =>
              decide (x.pageNumber < n.pageNumber) ||
                (decide (x.pageNumber = n.pageNumber) && decide (n.y < x.y))) }

def sortedHeadings (c : ContentDoc) : List DocHeading :=
  stableSort headingLe c.struct.headings

/-- The indexed loop of identifySections: each heading is paired with the
immediately following heading of the sorted list. -/
def sectionsGo (pages : List PageRec) (hs : List DocHeading) :
    List DocHeading → List Section
  | [] => []
  | h :: rest => mkSection pages hs h rest.head? :: sectionsGo pages hs rest

/-- StructureAnalyzer.identifySections. -/
def identifySections (c : ContentDoc) : List Section :=
  sectionsGo c.pages (sortedHeadings c) (sortedHeadings c)

/-- The first later heading with level at or above (numerically at most) the
given heading's level. -/
def nextAtOrAbove (h : DocHeading) : List DocHeading → Option DocHeading
  | [] => none
  | x :: xs => if x.level ≤ h.level then some x else nextAtOrAbove h xs

/-- Modelled from the spec: the Section data model sentence says content is
derived "by slicing page text between one Heading and the next at or above
its level"; this variant of identifySections pairs each heading with the
first following heading whose level is at or above its own instead of the
immediately following heading.  It exists only for comparison with the
code's identifySections. -/
def identifySectionsAtOrAboveRule (c : ContentDoc) : List Section :=
  let hs := sortedHeadings c
  let rec go : List DocHeading → List Section
    | [] => []
    | h :: rest => mkSection c.pages hs h (nextAtOrAbove h rest) :: go rest
  go hs

/-! ## Page extraction (PDFProcessor.extractAllPages)

A raw PDF.js text item carries an optional transform; reading transform[0],
transform[4] and transform[5] from a missing transform throws a TypeError,
which the per-page try/catch of extractAllPages turns into an errored empty
page record.  The cancellation check and progress callback are outside the
claims settled here. -/

structure Transform where
  a : Int
  e : Int
  f : Int
deriving DecidableEq, Repr

structure RawItem where
  str : List Char
  transform : Option Transform
  width : Int
  height : Int
  fontName : List Char
deriving DecidableEq, Repr

structure RawPage where
  pageNumber : Int
  items : List RawItem
deriving DecidableEq, Repr

structure PageOut where
  pageNumber : Int
  textItems : List Tok
  content : ContentPage
  rawText : List Char
  error : Option (List Char)
deriving DecidableEq, Repr

/-- Case-insensitive substring test used for bold/italic font-name checks. -/
def containsSub (needle hay : List Char) : Bool :=
  decide (needle.IsInfix (hay.map Char.toLower))

/-- The text-item mapping of extractAllPages for an item whose transform is
present. -/
def mkTok (it : RawItem) (tr : Transform) : Tok :=
  { text := it.str
    x := tr.e
    y := tr.f
    width := it.width
    height := it.height
    fontName := it.fontName
    fontSize := tr.a
    bold := containsSub "bold".toList it.fontName
    italic := containsSub "italic".toList it.fontName }

/-- textContent.items.map(...): the first item with a missing transform
throws, aborting the whole page's mapping. -/
def convertItems : List RawItem → Except (List Char) (List Tok)
  | [] => .ok []
  | it :: its =>
      match it.transform with
      | none => .error "TypeError".toList
      | some tr =>
          match convertItems its with
          | .error e => .error e
          | .ok toks => .ok (mkTok it tr :: toks)

/-- The errored page record pushed by the catch branch of extractAllPages. -/
def errorSlice (p : RawPage) (e : List Char) : PageOut :=
  ⟨p.pageNumber, [], ⟨[], []⟩, [], some e⟩

/-- One iteration of the page loop of extractAllPages. -/
def extractOnePage (p : RawPage) : PageOut :=
  match convertItems p.items with
  | .ok toks =>
      ⟨p.pageNumber, toks, processTextItems toks,
        joinSp (p.items.map (·.str)), none⟩
  | .error e => errorSlice p e

def extractAllPages : List RawPage → List PageOut
  | [] => []
  | p :: ps => extractOnePage p :: extractAllPages ps

/-- The shape every flushed paragraph's line list has: nonempty, no line
trimming to empty, consecutive y gaps at most 20, and every line's font
size within 2 of the first line's. -/
def chainedLines (ls : List Line) : Prop :=
  ls ≠ [] ∧ (∀ l ∈ ls, jsTrim l.text ≠ []) ∧
    List.Chain' (fun a b => (a.y - b.y).natAbs ≤ 20) ls ∧
    ∀ h0 ∈ ls.head?, ∀ l ∈ ls, (l.fontSize - h0.fontSize).natAbs ≤ 2

/-! ## Concrete inputs used by the counterexamples and witnesses -/

/-- A token at the given x and y (text "a", font size 10). -/
def tokAt (xv yv : Int) : Tok :=
  ⟨['a'], xv, yv, 1, 1, [], 10, false, false⟩

/-- Three tokens whose y values 8, 4, 0 drift in steps below the 5-unit
tolerance but span 8 units overall. -/
def driftTokens : List Tok := [tokAt 0 8, tokAt 1 4, tokAt 2 0]

def singleTok : Tok := ⟨"x".toList, 0, 0, 1, 1, [], 10, false, false⟩

def singleLine : Line := ⟨0, [], "hello".toList, 10, false, false⟩

/-- Scenario A: one bold 18pt heading line and three 10pt body lines. -/
def lineA1 : Line := ⟨700, [], "1. Introduction".toList, 18, true, false⟩
def lineA2 : Line := ⟨650, [], "lorem ipsum dolor sit".toList, 10, false, false⟩
def lineA3 : Line := ⟨600, [], "amet consectetur adipiscing".toList, 10, false, false⟩
def lineA4 : Line := ⟨560, [], "elit sed do eiusmod".toList, 10, false, false⟩
def scenarioALines : List Line := [lineA1, lineA2, lineA3, lineA4]

/-- Headings on consecutive pages, the second with y = 10001 out of the
formula's implicit range. -/
def hOutA : DocHeading := ⟨"A".toList, 1, 18, true, 0, 1⟩
def hOutB : DocHeading := ⟨"B".toList, 1, 18, true, 10001, 2⟩
def outOfRangeDoc : ContentDoc :=
  ⟨[⟨1, [], []⟩, ⟨2, [], []⟩], ⟨[hOutA, hOutB], [], []⟩⟩

def hInC : DocHeading := ⟨"C".toList, 1, 18, true, 100, 1⟩
def hInD : DocHeading := ⟨"D".toList, 1, 18, true, 200, 2⟩
def inRangeDoc : ContentDoc :=
  ⟨[⟨1, [], []⟩, ⟨2, [], []⟩], ⟨[hInC, hInD], [], []⟩⟩
def roInC : ROElement := ⟨"heading".toList, .heading hInC, 1, 100, 19900⟩
def roInD : ROElement := ⟨"heading".toList, .heading hInD, 2, 200, 29800⟩

/-- A level-1 heading followed by a level-2 heading on the same page, with a
body paragraph under each. -/
def parTitle : Paragraph := ⟨[], "Title".toList, 18, true, false, 700⟩
def parBody1 : Paragraph := ⟨[], "intro body".toList, 10, false, false, 650⟩
def parSub : Paragraph := ⟨[], "Sub".toList, 14, true, false, 600⟩
def parBody2 : Paragraph := ⟨[], "sub body".toList, 10, false, false, 550⟩
def hTitle : DocHeading := ⟨"Title".toList, 1, 18, true, 700, 1⟩
def hSub : DocHeading := ⟨"Sub".toList, 2, 14, true, 600, 1⟩
def nestedHeadingDoc : ContentDoc :=
  ⟨[⟨1, [parTitle, parBody1, parSub, parBody2], []⟩], ⟨[hTitle, hSub], [], []⟩⟩

def parW1 : Paragraph := ⟨[], "T".toList, 12, true, false, 700⟩
def parW2 : Paragraph := ⟨[], "body".toList, 10, false, false, 650⟩
def hW : DocHeading := ⟨"T".toList, 1, 12, true, 700, 1⟩
def oneHeadingDoc : ContentDoc :=
  ⟨[⟨1, [parW1, parW2], []⟩], ⟨[hW], [], []⟩⟩
def oneHeadingSection : Section :=
  ⟨"T".toList, 1, 1, 700, 0, "body".toList, 1, false⟩

/-- A well-formed raw item next to one missing its transform. -/
def rawGood : RawItem := ⟨"hello".toList, some ⟨10, 0, 100⟩, 5, 10, "Arial".toList⟩
def rawBad : RawItem := ⟨"world".toList, none, 5, 10, "Arial".toList⟩
def rawPageBad : RawPage := ⟨1, [rawGood, rawBad]⟩
def rawPageClean : RawPage := ⟨1, [rawGood]⟩

/-- Paragraphs whose first line carries a multi-letter roman marker. -/
def parRomanTwo : Paragraph := ⟨[], "ii. second item".toList, 10, false, false, 100⟩
def parRomanFour : Paragraph := ⟨[], "IV) fourth item".toList, 10, false, false, 90⟩

/-- The characters of the roman marker class [ivxlcdm], both cases. -/
def romanChars : List Char :=
  ['i', 'v', 'x', 'l', 'c', 'd', 'm', 'I', 'V', 'X', 'L', 'C', 'D', 'M']

def parRomanOne : Paragraph := ⟨[], "i. first".toList, 10, false, false, 100⟩

/-- 200 non-whitespace characters, with a match position at index 60 well
inside both boundaries. -/
def longText : List Char := List.replicate 200 'a'

/-- Two table-row candidate lines, 3 segments each, 10 units apart. -/
def tabLine1 : Line := ⟨100, [], "a   b   c".toList, 10, false, false⟩
def tabLine2 : Line := ⟨90, [], "d   e   f".toList, 10, false, false⟩

/-- The two-row block detected from the two candidate lines. -/
def tabBlock : Table :=
  ⟨[⟨"a   b   c".toList, ["a".toList, "b".toList, "c".toList], 100⟩,
    ⟨"d   e   f".toList, ["d".toList, "e".toList, "f".toList], 90⟩], 3, 100⟩

/-! ## Counterexamples and concrete results -/

/-- Claim C1, counterexample: three tokens whose y values drift in sub-5
steps (8, 4, 0) are clustered into a single line whose y is 0, so the first
member token's y differs from the line's y by 8, not strictly less than the
5-unit tolerance. -/
theorem c1_counterexample :
    ¬ (∀ line ∈ (processTextItems driftTokens).lines,
        ∀ t ∈ line.items, (t.y - line.y).natAbs < 5) := by
  decide

/-- Claim C2, counterexample: with a heading at y = 0 on page 1 and a heading
at y = 10001 on page 2, the page-1 element's order 20000 exceeds the page-2
element's order 19999, so the claimed cross-page ordering fails for y values
outside [0, 10000). -/
theorem c2_counterexample :
    ¬ (∀ a ∈ determineReadingOrder outOfRangeDoc,
        ∀ b ∈ determineReadingOrder outOfRangeDoc,
          a.pageNumber < b.pageNumber → a.order < b.order) := by
  decide

/-- Claim C5, counterexample: on the Scenario A page the cleaned heading
text is ". Introduction" (the numbering regex strips the digits but not the
following dot), and no single paragraph holds the three body lines - each
50- or 40-unit gap exceeds the 20-unit paragraph threshold, so they split
into three one-line paragraphs. -/
theorem c5_counterexample :
    ¬ (((identifyHeadings (groupLinesIntoParagraphs scenarioALines)).map
          (fun h => cleanHeadingText h.text)) = ["Introduction".toList] ∧
        ∃ p ∈ groupLinesIntoParagraphs scenarioALines,
          p.lines = [lineA2, lineA3, lineA4]) := by
  decide

/-- Claim C5, actual behaviour on the Scenario A page: four one-line
paragraphs, exactly one heading — "1. Introduction", level 3 by the ratio
ladder (18pt against the 12pt page mean exceeds 1.3x but not 1.5x) — and
cleaned heading text ". Introduction". -/
theorem c5_scenarioA_actual :
    (groupLinesIntoParagraphs scenarioALines).map (fun p => p.lines) =
        [[lineA1], [lineA2], [lineA3], [lineA4]] ∧
      identifyHeadings (groupLinesIntoParagraphs scenarioALines) =
        [⟨"1. Introduction".toList, 3, 18, true, 700⟩] ∧
      cleanHeadingText "1. Introduction".toList = ". Introduction".toList := by
  decide

/-- Claim C6, counterexample: a level-1 heading followed by a level-2
heading on the same page.  The code slices the level-1 section's content at
the immediately following (deeper) heading, yielding "intro body", while the
claimed at-or-above-level rule would let the section run to the end of the
page. -/
theorem c6_counterexample :
    (identifySections nestedHeadingDoc).map (fun s => s.content) =
        ["intro body".toList, "sub body".toList] ∧
      (identifySectionsAtOrAboveRule nestedHeadingDoc).map (fun s => s.content) =
        ["intro body\n\nSub\n\nsub body".toList, "sub body".toList] ∧
      identifySections nestedHeadingDoc ≠
        identifySectionsAtOrAboveRule nestedHeadingDoc := by
  decide

/-- Claim C7, counterexample: a page holding one well-formed token and one
token with no transform produces an errored page with no lines at all, while
the same page without the malformed token produces a line — the malformed
token is not skipped individually and its sibling is affected. -/
theorem c7_counterexample :
    ((extractAllPages [rawPageBad]).map fun p => p.content.lines) = [[]] ∧
      ((extractAllPages [rawPageBad]).map fun p => p.error) ≠ [none] ∧
      ((extractAllPages [rawPageClean]).map fun p => p.content.lines) ≠ [[]] := by
  decide

/-- Claim C8, counterexample: paragraphs starting with the multi-letter
roman markers "ii. " and "IV) " are not classified as list items —
identifyLists tests only the bullet, numbered and single-letter patterns. -/
theorem c8_counterexample :
    identifyLists [parRomanTwo] = [] ∧ identifyLists [parRomanFour] = [] := by
  decide

set_option maxRecDepth 8000 in
/-- Claim C9, counterexample: for a match at index 60 of a 200-character
text the recorded context has 100 characters (50 on each side of the match
start), not a fixed width of 50. -/
theorem c9_counterexample :
    (crossRefContext longText 60).length = 100 ∧
      ¬ (crossRefContext longText 60).length = 50 := by
  decide

/-! ## Amended and confirmed properties -/

theorem jsTrim_length_le (s : List Char) : (jsTrim s).length ≤ s.length := by
  unfold jsTrim
  have h1 := (List.dropWhile_sublist (l := s) (p := isWS)).length_le
  have h2 := (List.dropWhile_sublist (l := (s.dropWhile isWS).reverse)
    (p := isWS)).length_le
  simp only [List.length_reverse] at *
  omega

/-- Claim C9, amended: the context recorded for a match at a given index is
the whitespace-trimmed slice of the page text running from 50 characters
before to 50 characters after the match's start index, clipped at the text
boundaries — a window of at most 100 characters, not a fixed 50. -/
theorem c9_context_window (text : List Char) (index : Nat) :
    crossRefContext text index =
        jsTrim ((text.take (index + 50)).drop (index - 50)) ∧
      (crossRefContext text index).length ≤ 100 := by
  have htake : text.take (min text.length (index + 50)) = text.take (index + 50) := by
    rcases le_total text.length (index + 50) with h | h
    · rw [min_eq_left h, List.take_length, List.take_of_length_le h]
    · rw [min_eq_right h]
  constructor
  · simp only [crossRefContext, extractContext, htake]
  · simp only [crossRefContext, extractContext, htake]
    have h1 := jsTrim_length_le ((text.take (index + 50)).drop (index - 50))
    have h2 : ((text.take (index + 50)).drop (index - 50)).length =
        (text.take (index + 50)).length - (index - 50) := by
      simp
    have h3 : (text.take (index + 50)).length ≤ index + 50 := by
      simp [List.length_take]
    omega

/-- convertItems fails with a TypeError exactly as the JS map does when some
item's transform is missing. -/
theorem convertItems_error_of_missing (items : List RawItem)
    (h : ∃ it ∈ items, it.transform = none) :
    convertItems items = .error "TypeError".toList := by
  induction items with
  | nil => simp at h
  | cons it its ih =>
      rcases h with ⟨x, hx, hnone⟩
      rcases List.mem_cons.mp hx with rfl | hx'
      · simp only [convertItems, hnone]
      · cases htr : it.transform with
        | none => simp only [convertItems, htr]
        | some tr =>
            have := ih ⟨x, hx', hnone⟩
            simp only [convertItems, htr, this]

/-- Claim C7, amended: extraction is page-local — the output is the
independent per-page map — and a page containing a token with missing
geometry fails as a whole: it contributes an errored slice with no tokens,
no lines and no paragraphs, rather than skipping just the malformed token;
no error escapes the page loop. -/
theorem c7_page_scoped_failure (ps : List RawPage) :
    extractAllPages ps = ps.map extractOnePage ∧
      ∀ p ∈ ps, (∃ it ∈ p.items, it.transform = none) →
        extractOnePage p = errorSlice p "TypeError".toList := by
  constructor
  · induction ps with
    | nil => rfl
    | cons p ps ih => simp only [extractAllPages, ih, List.map_cons]
  · intro p _ hbad
    simp only [extractOnePage, convertItems_error_of_missing p.items hbad]

/-- Claim C7, witness: the two-token page with one malformed token is
extracted as the errored empty slice inside the per-page map. -/
theorem c7_witness :
    extractAllPages [rawPageBad] = [rawPageBad].map extractOnePage ∧
      extractOnePage rawPageBad = errorSlice rawPageBad "TypeError".toList :=
  ⟨(c7_page_scoped_failure [rawPageBad]).1,
    (c7_page_scoped_failure [rawPageBad]).2 rawPageBad (by decide)
      ⟨rawBad, by decide, rfl⟩⟩

theorem mkTable_rows_length (cur : List PotLine) :
    (mkTable cur).rows.length = cur.length := by
  cases cur <;> simp [mkTable]

theorem tableGo_rows (rest : List PotLine) :
    ∀ cur, ∀ t ∈ tableGo rest cur, 2 ≤ t.rows.length := by
  induction rest with
  | nil =>
      intro cur t ht
      simp only [tableGo] at ht
      by_cases h2 : 2 ≤ cur.length
      · rw [if_pos h2] at ht
        rcases List.mem_singleton.mp ht with rfl
        rw [mkTable_rows_length]
        exact h2
      · rw [if_neg h2] at ht
        simp at ht
  | cons c rest ih =>
      intro cur t ht
      simp only [tableGo] at ht
      by_cases hnil : cur = []
      · rw [dif_pos hnil] at ht
        exact ih [c] t ht
      · rw [dif_neg hnil] at ht
        split at ht
        · exact ih (cur ++ [c]) t ht
        · split at ht
          · rcases List.mem_cons.mp ht with rfl | ht'
            · rw [mkTable_rows_length]
              assumption
            · exact ih [c] t ht'
          · exact ih [c] t ht

/-- Claim C10: every table block emitted by the table detector has at least
two rows; an isolated candidate row never yields a block. -/
theorem c10_tables_at_least_two_rows (lines : List Line) :
    ∀ t ∈ identifyTables lines, 2 ≤ t.rows.length := by
  intro t ht
  simp only [identifyTables] at ht
  split at ht
  · exact tableGo_rows _ [] t ht
  · simp at ht


/-- Claim C10, witness: the block detected from the two aligned candidate
lines has at least two rows. -/
theorem c10_witness : 2 ≤ tabBlock.rows.length :=
  c10_tables_at_least_two_rows [tabLine1, tabLine2] tabBlock (by decide)

/-- Every element of the composed reading order carries
order = calculateReadingOrder pageNumber y. -/
theorem readingOrder_mem_order (c : ContentDoc) (e : ROElement)
    (he : e ∈ determineReadingOrder c) :
    e.order = calculateReadingOrder e.pageNumber e.y := by
  rw [determineReadingOrder, mem_stableSort, List.mem_flatten] at he
  rcases he with ⟨l, hl, hel⟩
  rw [List.mem_map] at hl
  rcases hl with ⟨page, _, rfl⟩
  simp only [pageElements, List.mem_append, List.mem_map] at hel
  rcases hel with ((⟨h, _, rfl⟩ | ⟨p, _, rfl⟩) | ⟨l', _, rfl⟩) | ⟨t, _, rfl⟩ <;> rfl

/-- Claim C2, amended: the composed reading order is strictly monotone
across pages provided every compared element's y lies in [0, 10000): for
elements a and b with a.pageNumber < b.pageNumber and both y values in
range, a.order < b.order.  (For y outside that range the formula
pageNumber * 10000 + (10000 - y) can invert or tie pages, as the
counterexample shows.) -/
theorem c2_order_monotone_in_range (c : ContentDoc) (a b : ROElement)
    (ha : a ∈ determineReadingOrder c) (hb : b ∈ determineReadingOrder c)
    (hpage : a.pageNumber < b.pageNumber)
    (hay0 : 0 ≤ a.y) (hay1 : a.y < 10000)
    (hby0 : 0 ≤ b.y) (hby1 : b.y < 10000) :
    a.order < b.order := by
  rw [readingOrder_mem_order c a ha, readingOrder_mem_order c b hb]
  simp only [calculateReadingOrder]
  omega

/-- Claim C2, witness: the two in-range headings on pages 1 and 2 compare
strictly by order. -/
theorem c2_witness : roInC.order < roInD.order :=
  c2_order_monotone_in_range inRangeDoc roInC roInD (by decide) (by decide)
    (by decide) (by decide) (by decide) (by decide) (by decide)

/-- Invariant of the line-grouping walk: the accumulator is chained within
the 5-unit step tolerance and currentY is the last member's y, so every
flushed line is chained and carries its last member's y. -/
theorem groupLoop_lines (ts : List Tok) :
    ∀ cur curY, cur ≠ [] →
      List.Chain' (fun a b => (b.y - a.y).natAbs < 5) cur →
      (∃ t, cur.getLast? = some t ∧ t.y = curY) →
      ∀ line ∈ groupLoop ts cur curY,
        List.Chain' (fun a b => (b.y - a.y).natAbs < 5) line.items ∧
          ∃ t, line.items.getLast? = some t ∧ line.y = t.y := by
  induction ts with
  | nil =>
      intro cur curY hne hch hlast line hline
      simp only [groupLoop, List.mem_singleton] at hline
      subst hline
      refine ⟨hch, ?_⟩
      rcases hlast with ⟨t, h1, h2⟩
      exact ⟨t, h1, h2.symm⟩
  | cons t ts ih =>
      intro cur curY hne hch hlast line hline
      simp only [groupLoop] at hline
      split at hline
      · refine ih (cur ++ [t]) t.y (by simp) ?_ ⟨t, by simp, rfl⟩ line hline
        rw [List.chain'_append]
        refine ⟨hch, List.chain'_singleton t, ?_⟩
        intro x hx y hy
        rcases hlast with ⟨last, hl1, hl2⟩
        rw [hl1, Option.mem_some_iff] at hx
        subst hx
        simp only [List.head?_cons, Option.mem_some_iff] at hy
        subst hy
        rw [hl2]
        assumption
      · rcases List.mem_cons.mp hline with rfl | hline'
        · refine ⟨hch, ?_⟩
          rcases hlast with ⟨u, h1, h2⟩
          exact ⟨u, h1, h2.symm⟩
        · exact ih [t] t.y (by simp) (List.chain'_singleton t)
            ⟨t, by simp, rfl⟩ line hline'

/-- Claim C1, amended: in every line produced by the line assembler,
consecutive member tokens differ in y by strictly less than the 5-unit
tolerance (the tolerance is applied to the running currentY, which tracks
the last joined token), and the line's y equals its last member token's y —
so a member's distance to the line's y can accumulate beyond 5, as the
counterexample shows, while successive members never drift by 5 or more. -/
theorem c1_line_drift_bound (items : List Tok) (line : Line)
    (hline : line ∈ (processTextItems items).lines) :
    List.Chain' (fun a b => (b.y - a.y).natAbs < 5) line.items ∧
      ∃ t, line.items.getLast? = some t ∧ line.y = t.y := by
  rw [processTextItems] at hline
  split at hline
  · simp at hline
  · cases hs : stableSort tokLe items with
    | nil => rw [hs] at hline; simp [groupIntoLines] at hline
    | cons t ts =>
        rw [hs] at hline
        exact groupLoop_lines ts [t] t.y (by simp) (List.chain'_singleton t)
          ⟨t, by simp, rfl⟩ line hline

/-- Claim C1, witness: the single-token page yields one line whose items
chain trivially and whose y is its last member's y. -/
theorem c1_witness :
    List.Chain' (fun a b => (b.y - a.y).natAbs < 5) (mkLine 0 [singleTok]).items ∧
      ∃ t, (mkLine 0 [singleTok]).items.getLast? = some t ∧
        (mkLine 0 [singleTok]).y = t.y :=
  c1_line_drift_bound [singleTok] (mkLine 0 [singleTok]) (by decide)

theorem mkParagraph_lines (ls : List Line) (h : ls ≠ []) :
    (mkParagraph ls).lines = ls := by
  cases ls with
  | nil => exact absurd rfl h
  | cons l ls => rfl

/-- Invariant of the segmenter walk: whenever the accumulator is nonempty it
is chained and lastY is its last line's y, so every flushed paragraph has
chained lines and is determined by them. -/
theorem paraLoop_wf (ls : List Line) :
    ∀ cur lastY,
      (cur = [] ∨ (chainedLines cur ∧
        ∃ last, cur.getLast? = some last ∧ lastY = some last.y)) →
      ∀ p ∈ paraLoop ls cur lastY,
        chainedLines p.lines ∧ p = mkParagraph p.lines := by
  induction ls with
  | nil =>
      intro cur lastY hinv p hp
      simp only [paraLoop] at hp
      split at hp
      · simp at hp
      · next hcur =>
          rcases List.mem_singleton.mp hp with rfl
          have hne : cur ≠ [] := by
            intro h; rw [h] at hcur; simp at hcur
          rcases hinv with rfl | ⟨hch, -⟩
          · exact absurd rfl hne
          · rw [mkParagraph_lines cur hne]
            exact ⟨hch, rfl⟩
  | cons l ls ih =>
      intro cur lastY hinv p hp
      simp only [paraLoop] at hp
      split at hp
      · next hcond =>
          have hne : cur ≠ [] := by
            intro h
            rw [h] at hcond
            simp at hcond
          rcases hinv with rfl | ⟨hch, -⟩
          · exact absurd rfl hne
          · rcases List.mem_cons.mp hp with rfl | hp'
            · rw [mkParagraph_lines cur hne]
              exact ⟨hch, rfl⟩
            · refine ih _ _ ?_ p hp'
              by_cases he : jsTrim l.text = []
              · rw [if_pos he]
                exact Or.inl rfl
              · rw [if_neg he]
                refine Or.inr ⟨⟨by simp, ?_, ?_, ?_⟩, l, by simp, rfl⟩
                · intro x hx
                  rcases List.mem_singleton.mp hx with rfl
                  exact he
                · exact List.chain'_singleton l
                · intro h0 hh0 x hx
                  simp only [List.head?_cons, Option.mem_some_iff] at hh0
                  rcases List.mem_singleton.mp hx with rfl
                  subst hh0
                  simp
      · next hcond =>
          by_cases hc : cur = []
          · subst hc
            refine ih _ _ ?_ p hp
            by_cases he : jsTrim l.text = []
            · rw [if_pos he]
              exact Or.inl rfl
            · rw [if_neg he]
              simp only [List.nil_append]
              refine Or.inr ⟨⟨by simp, ?_, ?_, ?_⟩, l, by simp, rfl⟩
              · intro x hx
                rcases List.mem_singleton.mp hx with rfl
                exact he
              · exact List.chain'_singleton l
              · intro h0 hh0 x hx
                simp only [List.head?_cons, Option.mem_some_iff] at hh0
                rcases List.mem_singleton.mp hx with rfl
                subst hh0
                simp
          · have hnew : paraIsNew cur lastY l = false := by
              by_contra hnew
              rw [Bool.not_eq_false] at hnew
              rw [hnew, Bool.true_and, Bool.not_eq_true'] at hcond
              have hemp : cur.isEmpty = true := by
                cases hcur : cur.isEmpty
                · exact absurd hcur hcond
                · rfl
              exact hc (List.isEmpty_iff.mp hemp)
            rcases hinv with rfl | ⟨⟨-, htrim, hch, hfs⟩, last, hlast, rfl⟩
            · exact absurd rfl hc
            · have hntrim : jsTrim l.text ≠ [] := by
                intro he
                simp [paraIsNew, he] at hnew
              have hsp : (last.y - l.y).natAbs ≤ 20 := by
                simp only [paraIsNew, paraSpacing, Bool.or_eq_false_iff,
                  decide_eq_false_iff_not, not_lt] at hnew
                exact hnew.1.1
              have hfsl : ∀ c, cur.head? = some c →
                  (l.fontSize - c.fontSize).natAbs ≤ 2 := by
                intro c hcHead
                cases cur with
                | nil => simp at hcHead
                | cons c0 cs =>
                    simp only [List.head?_cons, Option.some_inj] at hcHead
                    subst hcHead
                    simp only [paraIsNew, Bool.or_eq_false_iff,
                      decide_eq_false_iff_not, not_lt] at hnew
                    exact hnew.2
              rw [if_neg hntrim] at hp
              refine ih _ _ ?_ p hp
              refine Or.inr ⟨⟨by simp [hc], ?_, ?_, ?_⟩, l, ?_, rfl⟩
              · intro x hx
                rcases List.mem_append.mp hx with hx' | hx'
                · exact htrim x hx'
                · rcases List.mem_singleton.mp hx' with rfl
                  exact hntrim
              · rw [List.chain'_append]
                refine ⟨hch, List.chain'_singleton l, ?_⟩
                intro x hx y hy
                rw [hlast, Option.mem_some_iff] at hx
                subst hx
                simp only [List.head?_cons, Option.mem_some_iff] at hy
                subst hy
                exact hsp
              · intro h0 hh0 x hx
                rw [List.head?_append_of_ne_nil _ hc] at hh0
                rcases List.mem_append.mp hx with hx' | hx'
                · exact hfs h0 hh0 x hx'
                · rcases List.mem_singleton.mp hx' with rfl
                  exact hfsl h0 hh0
              · rw [List.getLast?_concat]

/-- Re-running the walk over the lines of one chained paragraph never
triggers a flush: with a nonempty chained accumulator whose last line's y is
lastY, the remaining chained lines all join, producing the single paragraph
of the concatenation. -/
theorem paraLoop_chained_run (rest : List Line) :
    ∀ cur last, cur ≠ [] → cur.getLast? = some last →
      (∀ l ∈ cur ++ rest, jsTrim l.text ≠ []) →
      List.Chain' (fun a b => (a.y - b.y).natAbs ≤ 20) (cur ++ rest) →
      (∀ h0 ∈ cur.head?, ∀ l ∈ cur ++ rest,
        (l.fontSize - h0.fontSize).natAbs ≤ 2) →
      paraLoop rest cur (some last.y) = [mkParagraph (cur ++ rest)] := by
  induction rest with
  | nil =>
      intro cur last hne _ _ _ _
      simp only [paraLoop, List.append_nil]
      rw [if_neg (by simpa using hne)]
  | cons r rs ih =>
      intro cur last hne hlast htrim hch hfs
      have hrel : (last.y - r.y).natAbs ≤ 20 := by
        rw [List.chain'_append] at hch
        exact hch.2.2 last (by rw [hlast]; rfl) r rfl
      have hrtrim : jsTrim r.text ≠ [] :=
        htrim r (List.mem_append.mpr (Or.inr (List.mem_cons_self r rs)))
      have hrfs : ∀ c, cur.head? = some c →
          (r.fontSize - c.fontSize).natAbs ≤ 2 := by
        intro c hc
        exact hfs c hc r (List.mem_append.mpr (Or.inr (List.mem_cons_self r rs)))
      have hnew : paraIsNew cur (some last.y) r = false := by
        cases cur with
        | nil => exact absurd rfl hne
        | cons c0 cs =>
            simp only [paraIsNew, paraSpacing, Bool.or_eq_false_iff,
              decide_eq_false_iff_not, not_lt]
            exact ⟨⟨hrel, hrtrim⟩, hrfs c0 rfl⟩
      rw [paraLoop, hnew, Bool.false_and, if_neg (by simp), if_neg hrtrim]
      have hstep := ih (cur ++ [r]) r (by simp) (List.getLast?_concat _)
        (by
          intro x hx
          apply htrim x
          rw [List.append_assoc] at hx
          exact hx)
        (by rw [List.append_assoc]; exact hch)
        (by
          intro h0 hh0 x hx
          rw [List.head?_append_of_ne_nil _ hne] at hh0
          apply hfs h0 hh0 x
          rw [List.append_assoc] at hx
          exact hx)
      rw [hstep, List.append_assoc]
      rfl

/-- Segmenting the lines of one chained paragraph yields exactly that
paragraph. -/
theorem groupLines_chained (m : List Line)
    (h : chainedLines m) : groupLinesIntoParagraphs m = [mkParagraph m] := by
  rcases h with ⟨hne, htrim, hch, hfs⟩
  cases m with
  | nil => exact absurd rfl hne
  | cons l ls =>
      have hltrim : jsTrim l.text ≠ [] := htrim l (List.mem_cons_self l ls)
      rw [groupLinesIntoParagraphs, if_neg (by simp)]
      rw [paraLoop]
      rw [if_neg (by simp), if_neg hltrim]
      have := paraLoop_chained_run ls [l] l (by simp) rfl
        (by simpa using htrim) (by simpa using hch)
        (by
          intro h0 hh0 x hx
          simp only [List.head?_cons, Option.mem_some_iff] at hh0
          subst hh0
          exact hfs l rfl x (by simpa using hx))
      simpa using this

/-- Claim C4: the paragraph segmenter is deterministic — the same line
sequence always yields the same paragraphs — and idempotent: segmenting the
lines of any paragraph it produced reproduces exactly that paragraph. -/
theorem c4_segmenter_idempotent (ls : List Line) :
    groupLinesIntoParagraphs ls = groupLinesIntoParagraphs ls ∧
      ∀ p ∈ groupLinesIntoParagraphs ls,
        groupLinesIntoParagraphs p.lines = [p] := by
  refine ⟨rfl, ?_⟩
  intro p hp
  rw [groupLinesIntoParagraphs] at hp
  split at hp
  · simp at hp
  · have h := paraLoop_wf ls [] none (Or.inl rfl) p hp
    rcases h with ⟨hwf, heq⟩
    rw [groupLines_chained p.lines hwf, ← heq]

/-- Claim C4, witness: the one-line page segments to one paragraph, and
re-segmenting that paragraph's lines reproduces it. -/
theorem c4_witness :
    groupLinesIntoParagraphs [singleLine] = groupLinesIntoParagraphs [singleLine] ∧
      groupLinesIntoParagraphs (mkParagraph [singleLine]).lines =
        [mkParagraph [singleLine]] :=
  ⟨(c4_segmenter_idempotent [singleLine]).1,
    (c4_segmenter_idempotent [singleLine]).2 (mkParagraph [singleLine]) (by decide)⟩

theorem goodNode_closeFrame (f : Frame)
    (h : goodKids f.level f.children = true) :
    goodNode (closeFrame f) = true := by
  rw [closeFrame]
  rw [goodNode]
  exact h

theorem goodKids_append (lvl : Nat) (n : ONode) :
    ∀ cs : List ONode,
      goodKids lvl (cs ++ [n]) = true ↔
        (goodKids lvl cs = true ∧ lvl < n.level ∧ goodNode n = true) := by
  intro cs
  induction cs with
  | nil => simp [goodKids]
  | cons c cs ih =>
      simp only [List.cons_append, goodKids, Bool.and_eq_true, ih]
      tauto

/-- popGE preserves goodness of all stack frames and roots and the strict
level decrease along the stack, and leaves a stack whose top (if any) has
level below the popped threshold. -/
theorem popGE_inv (lvl : Nat) :
    ∀ (fs : List Frame) (roots : List ONode),
      (∀ f ∈ fs, goodKids f.level f.children = true) →
      List.Chain' (fun a b => b.level < a.level) fs →
      (∀ n ∈ roots, goodNode n = true) →
      (∀ f ∈ (popGE lvl fs roots).1, goodKids f.level f.children = true) ∧
        List.Chain' (fun a b => b.level < a.level) (popGE lvl fs roots).1 ∧
        (∀ n ∈ (popGE lvl fs roots).2, goodNode n = true) ∧
        (∀ f ∈ (popGE lvl fs roots).1.head?, f.level < lvl) := by
  intro fs roots
  induction fs, roots using popGE.induct lvl with
  | case1 roots =>
      intro hframes hchain hroots
      refine ⟨by simp [popGE], by simp [popGE], ?_, ?_⟩
      · simpa [popGE] using hroots
      · simp [popGE]
  | case2 f roots hle =>
      intro hframes hchain hroots
      rw [popGE, if_pos hle]
      refine ⟨by simp, by simp, ?_, by simp⟩
      intro n hn
      rcases List.mem_append.mp hn with hn' | hn'
      · exact hroots n hn'
      · rcases List.mem_singleton.mp hn' with rfl
        exact goodNode_closeFrame f (hframes f (List.mem_singleton.mpr rfl))
  | case3 f roots hle =>
      intro hframes hchain hroots
      rw [popGE, if_neg hle]
      exact ⟨hframes, hchain, hroots, by
        intro x hx
        simp only [List.head?_cons, Option.mem_some_iff] at hx
        subst hx
        omega⟩
  | case4 f g gs roots hle ih =>
      intro hframes hchain hroots
      rw [popGE, if_pos hle]
      apply ih
      · intro x hx
        rcases List.mem_cons.mp hx with rfl | hx'
        · rw [goodKids_append]
          have hglt : g.level < f.level := (List.chain'_cons.mp hchain).1
          refine ⟨hframes g (by simp), by simpa using hglt, ?_⟩
          exact goodNode_closeFrame f (hframes f (by simp))
        · exact hframes x (by simp [hx'])
      · have hch2 : List.Chain' (fun a b => b.level < a.level) (g :: gs) :=
          (List.chain'_cons.mp hchain).2
        rcases gs with _ | ⟨g1, gs'⟩
        · simp
        · rw [List.chain'_cons] at hch2 ⊢
          exact hch2
      · exact hroots
  | case5 f g gs roots hle =>
      intro hframes hchain hroots
      rw [popGE, if_neg hle]
      exact ⟨hframes, hchain, hroots, by
        intro x hx
        simp only [List.head?_cons, Option.mem_some_iff] at hx
        subst hx
        omega⟩

/-- The heading fold preserves frame goodness, the strict level decrease
along the stack, and root goodness. -/
theorem outline_foldl_inv (hs : List DocHeading) :
    ∀ st : List Frame × List ONode,
      (∀ f ∈ st.1, goodKids f.level f.children = true) →
      List.Chain' (fun a b => b.level < a.level) st.1 →
      (∀ n ∈ st.2, goodNode n = true) →
      (∀ f ∈ (hs.foldl insertHeading st).1, goodKids f.level f.children = true) ∧
        List.Chain' (fun a b => b.level < a.level) (hs.foldl insertHeading st).1 ∧
        (∀ n ∈ (hs.foldl insertHeading st).2, goodNode n = true) := by
  induction hs with
  | nil => intro st h1 h2 h3; exact ⟨h1, h2, h3⟩
  | cons h hs ih =>
      intro st h1 h2 h3
      rw [List.foldl_cons]
      have hpop := popGE_inv h.level st.1 st.2 h1 h2 h3
      apply ih
      · intro f hf
        simp only [insertHeading] at hf
        rcases List.mem_cons.mp hf with rfl | hf'
        · rfl
        · exact hpop.1 f hf'
      · simp only [insertHeading]
        rw [List.chain'_cons']
        exact ⟨hpop.2.2.2, hpop.2.1⟩
      · simp only [insertHeading]
        exact hpop.2.2.1

/-- Claim C3: for every heading list the outline built by the level-aware
stack satisfies the nesting invariant — in every node of the resulting
forest, each child's level is strictly greater than its parent's. -/
theorem c3_outline_nesting (hs : List DocHeading) :
    goodForest (generateOutline hs) = true := by
  rw [generateOutline, goodForest]
  have hfold := outline_foldl_inv (stableSort headingLe hs) ([], [])
    (by simp) (by simp) (by simp)
  have hpop := popGE_inv 0 _ _ hfold.1 hfold.2.1 hfold.2.2
  rw [List.all_eq_true]
  exact fun n hn => hpop.2.2.1 n hn

theorem sectionsGo_get (pages : List PageRec) (hs : List DocHeading) :
    ∀ (rem : List DocHeading) (i : Nat) (s : Section),
      (sectionsGo pages hs rem).get? i = some s →
      ∃ h, rem.get? i = some h ∧ s = mkSection pages hs h (rem.get? (i + 1)) := by
  intro rem
  induction rem with
  | nil =>
      intro i s hget
      simp [sectionsGo] at hget
  | cons h rest ih =>
      intro i s hget
      cases i with
      | zero =>
          simp only [sectionsGo, List.get?_cons_zero, Option.some_inj] at hget
          refine ⟨h, rfl, ?_⟩
          rw [← hget]
          congr 1
          cases rest <;> rfl
      | succ n =>
          simp only [sectionsGo, List.get?_cons_succ] at hget ⊢
          exact ih n s hget

/-- Claim C6, amended: each section's content is sliced between its heading
and the immediately following heading of the sorted heading list, whatever
that heading's level — a later heading of strictly deeper level does
terminate the section's content, and the section's endY is that next
heading's y. -/
theorem c6_section_ends_at_next_heading (c : ContentDoc) (i : Nat) (s : Section)
    (hget : (identifySections c).get? i = some s) :
    ∃ h, (sortedHeadings c).get? i = some h ∧
      s.content =
        extractSectionContent c.pages h ((sortedHeadings c).get? (i + 1)) ∧
      s.endY = (match (sortedHeadings c).get? (i + 1) with
        | some n => n.y
        | none => 0) := by
  rw [identifySections] at hget
  rcases sectionsGo_get c.pages (sortedHeadings c) (sortedHeadings c) i s hget
    with ⟨h, h1, h2⟩
  exact ⟨h, h1, by rw [h2]; rfl, by rw [h2]; rfl⟩

/-- Claim C6, witness: in the one-heading document the first section's
content is the slice from its heading to the end (no following heading). -/
theorem c6_witness :
    ∃ h, (sortedHeadings oneHeadingDoc).get? 0 = some h ∧
      oneHeadingSection.content =
        extractSectionContent oneHeadingDoc.pages h
          ((sortedHeadings oneHeadingDoc).get? 1) ∧
      oneHeadingSection.endY = (match (sortedHeadings oneHeadingDoc).get? 1 with
        | some n => n.y
        | none => 0) :=
  c6_section_ends_at_next_heading oneHeadingDoc 0 oneHeadingSection (by decide)

/-- Claim C8, amended: only single-letter roman markers are recognized, and
via the lettered pattern — for a paragraph whose trimmed first-line text is
a roman letter, a dot or parenthesis and a space, the recognizer emits one
ordered list with the marker stripped; multi-letter roman markers such as
"ii." or "IV)" match none of the three patterns the code actually tests
(bullet, numbered, lettered), as the counterexample shows. -/
theorem c8_single_letter_roman_recognized (p : Paragraph) (c d : Char)
    (rest : List Char) (hc : c ∈ romanChars) (hd : d = '.' ∨ d = ')')
    (htext : jsTrim p.text = c :: d :: ' ' :: rest) :
    identifyLists [p] = [⟨.ordered, [⟨jsTrim rest, [c, d], p.y⟩], p.y⟩] := by
  have hfacts : ∀ x ∈ romanChars,
      x.isAlpha = true ∧ x ∉ markerChars ∧ x.isDigit = false := by decide
  obtain ⟨halpha, hnmark, hdigit⟩ := hfacts c hc
  have hnbul : c ∉ unicodeBullets := fun h =>
    hnmark (List.mem_append.mpr (Or.inl h))
  have hndash : c ∉ (['-', '*', '+'] : List Char) := fun h =>
    hnmark (List.mem_append.mpr (Or.inr h))
  have hor : ¬(c = '•' ∨ c = '·' ∨ c = '▪' ∨ c = '▫' ∨ c = '‣' ∨ c = '⁃') := by
    simpa [unicodeBullets] using hnbul
  rcases hd with rfl | rfl <;>
    simp [identifyLists, identifyListsGo, htext, isBulletStart, isNumberedStart,
      isLetterStart, matchMarker, stripMarker, List.takeWhile, halpha, hnmark,
      hnbul, hndash, hdigit, isWS, markerChars, unicodeBullets, hor]

/-- Claim C8, witness: "i. first" is recognized as one ordered list item
with marker "i." and text "first". -/
theorem c8_witness :
    identifyLists [parRomanOne] =
      [⟨.ordered, [⟨jsTrim "first".toList, ['i', '.'], parRomanOne.y⟩],
        parRomanOne.y⟩] :=
  c8_single_letter_roman_recognized parRomanOne 'i' '.' "first".toList
    (by decide) (Or.inl rfl) (by decide)
